import Mathlib

/-!
Verification development for the ACC MCP server's resilient API client
substrate (src/auth.py, src/api.py, src/server.py).

The Python source is shallowly embedded: strings are `List Char`, network
traffic is passed in as explicit response oracles, shared mutable state is
threaded explicitly, and machine effects (token fetches, HTTP requests,
sleeps) are recorded in explicit event traces.  Every definition is
translated from the source, except where a doc-string notes that the
function is modelled from the specification because its defining module is
not part of the sources.
-/

set_option autoImplicit false

/-! ### Basic string machinery (Python `str` operations over `List Char`) -/

/-- Boolean test that `p` begins `s`; Python `str.startswith`. -/
def isPre : List Char → List Char → Bool
  | [], _ => true
  | _ :: _, [] => false
  | a :: p, b :: s => a == b && isPre p s

/-- Boolean substring test; Python `pat in s`. -/
def isSub : List Char → List Char → Bool
  | p, [] => isPre p []
  | p, s@(_ :: t) => isPre p s || isSub p t

/-- Lower-case every character; Python `str.lower`. -/
def lowerList (s : List Char) : List Char := s.map Char.toLower

/-- Strip whitespace from both ends; Python `str.strip`. -/
def stripSpaces (s : List Char) : List Char :=
  ((s.dropWhile Char.isWhitespace).reverse.dropWhile Char.isWhitespace).reverse

/-- Split on a separator character, accumulator form; Python `str.split(sep)`. -/
def splitOnCharAux (sep : Char) (acc : List Char) : List Char → List (List Char)
  | [] => [acc.reverse]
  | c :: t => if c = sep then acc.reverse :: splitOnCharAux sep [] t
              else splitOnCharAux sep (c :: acc) t

/-- Split on a separator character; Python `str.split(sep)`. -/
def splitOnChar (sep : Char) (s : List Char) : List (List Char) :=
  splitOnCharAux sep [] s

/-- Boolean test that `suf` ends `s`; Python `str.endswith`. -/
def endsWithL (suf s : List Char) : Bool := isPre suf.reverse s.reverse

/-! ### `clean_id` (src/api.py lines 17-18) -/

/-- Removes every non-overlapping occurrence of `"b."`, scanning left to
right; the semantics of Python `s.replace("b.", "")` specialised to the
two-character pattern used by `clean_id`. -/
def removeBDot : List Char → List Char
  | [] => []
  | [c] => [c]
  | c :: d :: t2 => if c = 'b' ∧ d = '.' then removeBDot t2 else c :: removeBDot (d :: t2)

/-- src/api.py `clean_id`: `id_str.replace("b.", "") if id_str else ""`,
with `none` standing for Python `None` and `[]` for the empty string. -/
def clean_id : Option (List Char) → List Char
  | none => []
  | some s => if s = [] then [] else removeBDot s

/-! ### Credential Manager (src/auth.py) -/

/-- The module-level `_token_cache` dict of src/auth.py:
`{"access_token": None, "expires_at": 0}`.  Times are integers standing for
`time.time()` instants. -/
structure TokenCache where
  access_token : Option (List Char)
  expires_at : Int
deriving DecidableEq

/-- Outcome of one `get_token` call together with the updated cache and a
flag recording whether a network token exchange was issued. -/
inductive TokenOut
  | ok (tok : Option (List Char)) (cache : TokenCache) (exchanged : Bool)
  | configError
  | httpError (status : Nat)
deriving DecidableEq

/-- src/auth.py `get_token`.  `credsOk` stands for the presence of
`APS_CLIENT_ID`/`APS_CLIENT_SECRET`; `now` is the `time.time()` reading at
the cache check, `now2` the reading taken after a successful exchange;
`exch` is the network oracle for the token endpoint, delivering either an
error status (the `raise_for_status` path) or the token and its
`expires_in` ttl.  On success the cache stores
`(token, now2 + ttl - 60)` — the 60-second safety margin of line 70. -/
def get_token (credsOk : Bool) (force : Bool) (now now2 : Int)
    (exch : Except Nat (List Char × Int)) (c : TokenCache) : TokenOut :=
  if ¬credsOk then .configError
  else if ¬force ∧ now < c.expires_at then .ok c.access_token c false
  else
    match exch with
    | .error st => .httpError st
    | .ok (tok, ttl) => .ok (some tok) ⟨some tok, now2 + ttl - 60⟩ true

/-! ### Interleaved `get_token` callers (src/auth.py lines 40-72)

`get_token` performs no locking, so two concurrent callers are modelled as
a small-step interleaving: each caller first evaluates the cache-validity
check of line 44 against the shared cache, then (if it decided to refresh)
performs the exchange of lines 53-62 and the cache write of lines 69-70 as
its second step.  A schedule lists which caller moves next. -/

/-- Shared state for two interleaved `get_token(force_refresh=False)`
callers.  `pcA`/`pcB`: 0 = about to run the line-44 cache check,
1 = about to exchange and write (lines 53-70), 2 = returned.
`exchanges` counts network token exchanges performed. -/
structure RaceState where
  cache : TokenCache
  exchanges : Nat
  pcA : Nat
  pcB : Nat
deriving DecidableEq

/-- One scheduled step of one caller (`caller = true` for A). -/
def raceStep (now : Int) (tok : List Char) (ttl : Int) (st : RaceState)
    (caller : Bool) : RaceState :=
  let pc := if caller then st.pcA else st.pcB
  let setPc := fun (st2 : RaceState) (v : Nat) =>
    if caller then { st2 with pcA := v } else { st2 with pcB := v }
  match pc with
  | 0 => if now < st.cache.expires_at then setPc st 2 else setPc st 1
  | 1 =>
    setPc { st with cache := ⟨some tok, now + ttl - 60⟩,
                    exchanges := st.exchanges + 1 } 2
  | _ => st

/-- Run a schedule of interleaved caller steps from a starting state. -/
def raceRun (now : Int) (tok : List Char) (ttl : Int) (sched : List Bool)
    (st : RaceState) : RaceState :=
  sched.foldl (raceStep now tok ttl) st

/-! ### Identity Resolver memo (src/api.py lines 586-596)

`get_acting_user_id` is wrapped in `@lru_cache(maxsize=16)`.  The cache is
embedded with CPython's `functools.lru_cache` semantics: an association
list ordered most-recently-used first; a hit moves the entry to the front
without recomputing, a miss computes, inserts at the front and evicts the
least-recently-used entry once the size exceeds `maxsize`.  The body of
`get_acting_user_id` (env override, requester lookup, admin fallback) is
abstracted as the oracle `resolve`, indexed by the call number so that the
external directory may answer differently over time. -/

/-- Cache key of `get_acting_user_id`: the `(account_id, requester_email)`
argument pair, each `Optional[str]`. -/
abbrev ActingKey := Option (List Char) × Option (List Char)

/-- Look a key up in an LRU association list. -/
def lruLookup {K V : Type} [DecidableEq K] (entries : List (K × V)) (k : K) :
    Option V :=
  match entries.find? (fun e => decide (e.1 = k)) with
  | some e => some e.2
  | none => none

/-- One call through an `lru_cache(maxsize)`-wrapped function: returns the
value, the updated entry list, and whether the wrapped body ran. -/
def lruCall {K V : Type} [DecidableEq K] (maxsize : Nat) (f : Nat → K → V)
    (i : Nat) (entries : List (K × V)) (k : K) : V × List (K × V) × Bool :=
  match entries.find? (fun e => decide (e.1 = k)) with
  | some e => (e.2, e :: entries.filter (fun x => decide (¬x.1 = k)), false)
  | none =>
    let v := f i k
    let es := (k, v) :: entries
    (v, if maxsize < es.length then es.dropLast else es, true)

/-- src/api.py `get_acting_user_id`: the `@lru_cache(maxsize=16)` wrapper
around the resolution strategies (abstracted as `resolve`). -/
def get_acting_user_id (resolve : Nat → ActingKey → Option (List Char))
    (i : Nat) (entries : List (ActingKey × Option (List Char)))
    (k : ActingKey) :
    Option (List Char) × List (ActingKey × Option (List Char)) × Bool :=
  lruCall 16 resolve i entries k

/-- A sequence of `get_acting_user_id` calls from an empty cache, returning
the per-call `(value, body ran)` observations and the final entry list. -/
def actingUserRunAux (resolve : Nat → ActingKey → Option (List Char)) :
    List ActingKey → Nat → List (ActingKey × Option (List Char)) →
    List (Option (List Char) × Bool) × List (ActingKey × Option (List Char))
  | [], _, entries => ([], entries)
  | k :: ks, i, entries =>
    let r := get_acting_user_id resolve i entries k
    let rest := actingUserRunAux resolve ks (i + 1) r.2.1
    ((r.1, r.2.2) :: rest.1, rest.2)

/-- Run a call sequence against a fresh (process start) memo. -/
def actingUserRun (resolve : Nat → ActingKey → Option (List Char))
    (keys : List ActingKey) :
    List (Option (List Char) × Bool) × List (ActingKey × Option (List Char)) :=
  actingUserRunAux resolve keys 0 []

/-! ### Resilient Request Executor (src/api.py lines 38-50 and 1518-1622)

Network traffic is passed in explicitly and machine effects are recorded
in an event trace, so that "sleeps", "retries once" and "issues exactly
two requests" are observable statements. -/

/-- An effect performed by the executor, in order of occurrence. -/
inductive TEvent
  | tokenFetch (forced : Bool)
  | httpGet
  | sleepEv (secs : Nat)
deriving DecidableEq

/-- One upstream HTTP response for `make_api_request`: a status code and a
parsed JSON body (opaque, modelled as a list of naturals). -/
structure HttpResp where
  status : Nat
  body : List Nat
deriving DecidableEq

/-- Result of `make_api_request`: the parsed body, or the
`"Error {status}: {text}"` string of lines 46/50 (carried as its status;
status 0 stands for the exception path). -/
inductive ApiOut
  | json (body : List Nat)
  | errStr (status : Nat)
deriving DecidableEq

/-- src/api.py `make_api_request` (lines 38-50): fetch a token, issue one
GET, and return the body on success or the error string on any status of
400 and above.  The function consumes exactly the first response of the
oracle and performs no sleep and no retry; an empty oracle stands for the
requests-raised exception of line 48. -/
def make_api_request (resps : List HttpResp) : ApiOut × List TEvent :=
  match resps with
  | [] => (.errStr 0, [.tokenFetch false, .httpGet])
  | r :: _ =>
    if 400 ≤ r.status then (.errStr r.status, [.tokenFetch false, .httpGet])
    else (.json r.body, [.tokenFetch false, .httpGet])

/-- One upstream response for the metadata endpoint used by
`get_view_guid_only`: a status and the `data.metadata` view list (each view
carried as its GUID), or a raised transport exception. -/
inductive VRes
  | http (status : Nat) (views : List (List Char))
  | exn
deriving DecidableEq

/-- The `ValueError` outcomes raised by `get_view_guid_only`. -/
inductive VErr
  | authFail
  | notFoundErr
  | apiErr (status : Nat)
  | noViews
  | genericErr
deriving DecidableEq

/-- Outcome of one attempt body of the `for attempt in range(2)` loop of
src/api.py lines 1541-1619: 401 → auth failure, 404 → not found, any
other non-200 → API error, 200 with no views → no-views error, 200 with
views → the first view's GUID; a transport exception maps to the generic
error of lines 1614-1619. -/
def viewAttempt (r : VRes) : Except VErr (List Char) :=
  match r with
  | .exn => .error .genericErr
  | .http st views =>
    if st = 401 then .error .authFail
    else if st = 404 then .error .notFoundErr
    else if st ≠ 200 then .error (.apiErr st)
    else
      match views with
      | [] => .error .noViews
      | g :: _ => .ok g

/-- src/api.py `get_view_guid_only` (lines 1518-1622): attempt 0 runs with
a normally fetched token; every failing first attempt (the explicit 401
`continue` of line 1567, and every raised `ValueError`/exception caught at
lines 1607-1619) leads to exactly one retry with a force-refreshed token;
the second attempt's outcome is returned or raised as is.  `r0`/`r1` are
the upstream responses to the first and (if issued) second request. -/
def get_view_guid_only (r0 r1 : VRes) :
    Except VErr (List Char) × List TEvent :=
  match viewAttempt r0 with
  | .ok g => (.ok g, [.tokenFetch false, .httpGet])
  | .error _ =>
    (viewAttempt r1, [.tokenFetch false, .httpGet, .tokenFetch true, .httpGet])

/-! ### Pagination Engine (src/api.py lines 699-813) -/

/-- One loop iteration's worth of upstream traffic for
`fetch_paginated_data`: either an HTTP response — its status, the
normalized item batch (the bare-list / `"data"` / `"results"` shapes of
lines 781-788, items opaque as naturals) and the `links.next.href` value —
or a raised exception (the `except` of line 809). -/
inductive PEvent
  | http (status : Nat) (batch : List Nat) (next : Option (List Char))
  | exn
deriving DecidableEq

/-- Result of `fetch_paginated_data`: the accumulated item list, or the
`"❌ API Error {status}: {text}"` string of line 773 (carried as its
status). -/
inductive PagedOut
  | ok (items : List Nat)
  | err (status : Nat)
deriving DecidableEq

/-- The two pagination styles of src/api.py line 704. -/
inductive PStyle
  | url
  | offset
deriving DecidableEq

/-- The `while` loop of src/api.py lines 713-811.  `hubId`/`adminId` are
the (per-process cached, hence constant during one call) results of
`get_cached_hub_id` and `get_acting_user_id`; the `x-user-id` header of
lines 719-727 is injected from them when `impersonate` is set, and the
401 escalation block of lines 738-761 re-resolves the same cached values,
retrying the page only when that yields an id differing from the header
already sent.  `events` feeds the successive `requests.get` calls. -/
def fetchLoop (style : PStyle) (lim : Nat) (imp : Bool)
    (hubId adminId : Option (List Char)) :
    List PEvent → Option (List Char) → Nat → Nat → List Nat → Bool → PagedOut
  | _, none, _, _, allItems, _ => .ok allItems
  | events, some u, offs, pageCount, allItems, firstReq =>
    if 50 ≤ pageCount then .ok allItems
    else
      match events with
      | [] => .ok allItems
      | .exn :: _ => .ok allItems
      | .http st batch nxt :: rest =>
        let hdr : Option (List Char) :=
          if imp then
            match hubId, adminId with
            | some _, some a => some a
            | _, _ => none
          else none
        let adminEsc : Option (List Char) :=
          match hubId with
          | some _ => adminId
          | none => none
        if st = 401 ∧ imp = true ∧ adminEsc.isSome = true ∧ hdr ≠ adminEsc then
          -- lines 752-756: retry the same page once with the re-resolved id
          match rest with
          | [] => .ok allItems
          | .exn :: _ => .ok allItems
          | .http st2 batch2 nxt2 :: rest2 =>
            if st2 = 403 ∨ st2 = 404 then .ok allItems
            else if st2 ≠ 200 then
              if firstReq then .err st2 else .ok allItems
            else
              let nextUrl : Option (List Char) :=
                match style with
                | .url => nxt2
                | .offset => if batch2.length < lim then none else some u
              let offs2 :=
                match style with
                | .url => offs
                | .offset => if batch2.length < lim then offs else offs + lim
              fetchLoop style lim imp hubId adminId rest2 nextUrl offs2
                (pageCount + 1) (allItems ++ batch2) false
        else
          if st = 403 ∨ st = 404 then .ok allItems
          else if st ≠ 200 then
            if firstReq then .err st else .ok allItems
          else
            let nextUrl : Option (List Char) :=
              match style with
              | .url => nxt
              | .offset => if batch.length < lim then none else some u
            let offs2 :=
              match style with
              | .url => offs
              | .offset => if batch.length < lim then offs else offs + lim
            fetchLoop style lim imp hubId adminId rest nextUrl offs2
              (pageCount + 1) (allItems ++ batch) false

/-- src/api.py `fetch_paginated_data` (lines 699-813): run the page loop
from the starting URL with an empty accumulator, `page_count = 0`,
`offset = 0` and `first_request = True`. -/
def fetch_paginated_data (style : PStyle) (lim : Nat) (imp : Bool)
    (hubId adminId : Option (List Char)) (events : List PEvent)
    (url0 : List Char) : PagedOut :=
  fetchLoop style lim imp hubId adminId events (some url0) 0 0 [] true

/-! ### Hierarchical Resource Locator (src/api.py lines 392-492) -/

/-- The `itemType` tag assigned by `get_folder_contents` (lines 358-384):
`"file"` for `type == "items"`, `"folder"` for `type == "folders"`, and
absent for anything else. -/
inductive ItemKind
  | fileKind
  | folderKind
  | otherKind
deriving DecidableEq

/-- One parsed entry of a folder-contents response. -/
structure PItem where
  kind : ItemKind
  name : List Char
  id : List Char
  tipVersionUrn : Option (List Char)
deriving DecidableEq

/-- One parsed entry of the top-folders response. -/
structure TopF where
  id : List Char
  name : List Char
deriving DecidableEq

/-- An entry of the BFS `folder_queue` of line 430: id, accumulated display
path and depth. -/
structure QEntry where
  id : List Char
  name : List Char
  depth : Nat
deriving DecidableEq

/-- The file record produced at lines 465-470. -/
structure FileRec where
  name : List Char
  item_id : Option (List Char)
  version_id : Option (List Char)
  folder_path : List Char
deriving DecidableEq

/-- `"Project Files"`, the conventional root folder name (line 416). -/
def projectFilesName : List Char :=
  ['P', 'r', 'o', 'j', 'e', 'c', 't', ' ', 'F', 'i', 'l', 'e', 's']

/-- The extension check of line 464:
`any(name.lower().endswith("." + ext) for ext in ext_list)`. -/
def matchesExt (extList : List (List Char)) (n : List Char) : Bool :=
  extList.any (fun e => endsWithL ('.' :: e) (lowerList n))

/-- The extension-list parsing of line 432:
`[ext.strip().lower() for ext in extensions.split(",")]`. -/
def parseExts (extensions : List Char) : List (List Char) :=
  (splitOnChar ',' extensions).map (fun e => lowerList (stripSpaces e))

/-- The record appended to `matching_files` at lines 465-470. -/
def mkFileRec (folderName : List Char) (it : PItem) : FileRec :=
  { name := it.name, item_id := some it.id, version_id := it.tipVersionUrn,
    folder_path := folderName }

/-- The matching direct files contributed by one scanned folder: the
per-item loop of lines 457-470 restricted to file items. -/
def folderFiles (contents : List Char → Except (List Char) (List PItem))
    (extList : List (List Char)) (q : QEntry) : List FileRec :=
  match contents q.id with
  | .error _ => []
  | .ok items =>
    (items.filter
      (fun it => decide (it.kind = ItemKind.fileKind) &&
                 matchesExt extList it.name)).map (mkFileRec q.name)

/-- The subfolder queue entries contributed by one scanned folder: the
`elif item_type == "folder" and depth < max_depth` branch of lines
474-481, with `max_depth = 3`. -/
def folderChildren (contents : List Char → Except (List Char) (List PItem))
    (q : QEntry) : List QEntry :=
  match contents q.id with
  | .error _ => []
  | .ok items =>
    if q.depth < 3 then
      (items.filter (fun it => decide (it.kind = ItemKind.folderKind))).map
        (fun it => ⟨it.id, q.name ++ '/' :: it.name, q.depth + 1⟩)
    else []

/-- The BFS `while folder_queue and folders_scanned < max_folders_to_scan`
loop of lines 440-481, with `max_folders_to_scan = 50`.  The loop guard is
encoded by the `fuel` argument, which starts at 50 and decreases by one
per scanned folder, so `fuel = 50 - folders_scanned`; `trace` records each
dequeued (scanned) folder in order.  A string result from
`get_folder_contents` hits the `continue` of line 454. -/
def bfsLoop (contents : List Char → Except (List Char) (List PItem))
    (extList : List (List Char)) :
    Nat → List QEntry → List FileRec → List QEntry →
    List FileRec × List QEntry
  | 0, _, files, trace => (files, trace)
  | _ + 1, [], files, trace => (files, trace)
  | fuel + 1, q :: qs, files, trace =>
    bfsLoop contents extList fuel (qs ++ folderChildren contents q)
      (files ++ folderFiles contents extList q) (trace ++ [q])

/-- src/api.py `find_design_files` (lines 392-492): pick the top folder
named `"Project Files"`, else the first top folder (a missing or empty id
being Python-falsy), then run the capped BFS from it at depth 0.  Returns
the matching files together with the trace of scanned folders; `top` is
the `get_top_folders` result and `contents` the `get_folder_contents`
oracle. -/
def find_design_files (top : Except (List Char) (List TopF))
    (contents : List Char → Except (List Char) (List PItem))
    (extensions : List Char) :
    Except (List Char) (List FileRec × List QEntry) :=
  match top with
  | .error s => .error s
  | .ok tfs =>
    let pf1 : List Char :=
      match tfs.find? (fun f => f.name == projectFilesName) with
      | some f => f.id
      | none => []
    let pf2 : List Char :=
      if pf1.isEmpty then
        match tfs with
        | f :: _ => f.id
        | [] => []
      else pf1
    if pf2.isEmpty then
      .error ['n', 'o', ' ', 'f', 'o', 'l', 'd', 'e', 'r', 's']
    else
      .ok (bfsLoop contents (parseExts extensions) 50
        [⟨pf2, projectFilesName, 0⟩] [] [])

/-! ### Identifier resolution (src/api.py lines 1200-1282) -/

/-- The `ValueError` outcomes of `resolve_file_to_urn`. -/
inductive RErr
  | noHub
  | searchErr (msg : List Char)
  | notFoundR
deriving DecidableEq

/-- The fixed common-extension list of line 1231. -/
def commonExts : List (List Char) :=
  [['r', 'v', 't'], ['d', 'w', 'g'], ['n', 'w', 'c'],
   ['r', 'c', 'p'], ['i', 'f', 'c'], ['n', 'w', 'd']]

/-- `identifier.split(".")[-1].lower()` (line 1235). -/
def fileExtOf (identifier : List Char) : List Char :=
  lowerList ((splitOnChar '.' identifier).getLastD [])

/-- The extension ordering of lines 1231-1239: the filename's own
extension is moved to the front only when it already belongs to the fixed
list. -/
def extOrderOf (identifier : List Char) : List (List Char) :=
  if identifier.contains '.' then
    let fe := fileExtOf identifier
    if commonExts.contains fe then fe :: commonExts.erase fe else commonExts
  else commonExts

/-- The per-file match test of lines 1249-1259: case-insensitive equality
or substring containment of the identifier in the file name, returning the
item id only when it is Python-truthy. -/
def firstMatch (identifier : List Char) (files : List FileRec) :
    Option (List Char) :=
  files.findSome? (fun f =>
    if lowerList identifier == lowerList f.name ||
       isSub (lowerList identifier) (lowerList f.name) then
      match f.item_id with
      | some s => if s = [] then none else some s
      | none => none
    else none)

/-- The fallback loop over the remaining extensions (lines 1262-1273): an
error result from the search is skipped, a match returns immediately. -/
def tryExts (oracle : List Char → Except (List Char) (List FileRec))
    (identifier : List Char) : List (List Char) → Option (List Char)
  | [] => none
  | e :: es =>
    match oracle e with
    | .error _ => tryExts oracle identifier es
    | .ok files =>
      match firstMatch identifier files with
      | some urn => some urn
      | none => tryExts oracle identifier es

/-- src/api.py `resolve_file_to_urn` (lines 1200-1282).  `hub` is the
`get_cached_hub_id` value and `oracle` runs `find_design_files` for one
extension, returning its file list or its error string.  An identifier
already starting with `"urn:adsk"` is returned as is; otherwise the
extensions are searched in `extOrderOf` order, an error on the first
search raising the line-1246 `ValueError` and exhaustion raising the
line-1276 not-found `ValueError`. -/
def resolve_file_to_urn (hub : Option (List Char))
    (oracle : List Char → Except (List Char) (List FileRec))
    (identifier : List Char) : Except RErr (List Char) :=
  if isPre ['u', 'r', 'n', ':', 'a', 'd', 's', 'k'] identifier then
    .ok identifier
  else
    match hub with
    | none => .error .noHub
    | some _ =>
      match extOrderOf identifier with
      | [] => .error .notFoundR
      | e0 :: restExts =>
        match oracle e0 with
        | .error s => .error (.searchErr s)
        | .ok files =>
          match firstMatch identifier files with
          | some urn => .ok urn
          | none =>
            match tryExts oracle identifier restExts with
            | some urn => .ok urn
            | none => .error .notFoundR

/-! ### Streaming Category Scanner (spec §4.6)

`stream_count_elements` is imported by src/server.py line 49 and invoked
by `count_elements` (line 640), but the module that defines it is not
among the sources, so the scanner is modelled from the specification. -/

/-- One buffer pass of the scanner: count all non-overlapping (leftmost,
greedy) occurrences of the pattern in the buffer and report the remainder
after the end of the last occurrence (the whole buffer when nothing
matched).  `fuel` bounds the recursion and is irrelevant once it reaches
the buffer length. -/
def scanBufF : Nat → List Char → List Char → Nat × List Char
  | _, _, [] => (0, [])
  | 0, _, s => (0, s)
  | fuel + 1, p, c :: t =>
    if isPre p (c :: t) then
      let res := scanBufF fuel p ((c :: t).drop p.length)
      if res.1 = 0 then (1, (c :: t).drop p.length) else (res.1 + 1, res.2)
    else
      let res := scanBufF fuel p t
      if res.1 = 0 then (0, c :: t) else res

/-- One buffer pass of the scanner at full fuel. -/
def scanBuf (p s : List Char) : Nat × List Char := scanBufF s.length p s

/-- The number of non-overlapping occurrences of `p` in `s`, counted
leftmost-greedily — the reference count for a whole document. -/
def countOccs (p s : List Char) : Nat := (scanBuf p s).1

/-- Modelled from the spec: one chunk arrival of `stream_count_elements`
(spec §4.6), whose defining module is missing from the sources.  The chunk
is appended to the rolling buffer; all non-overlapping matches found in
this pass are counted and the buffer advances past the end of the last
match; if the pass finds no match, only the last `tail` bytes of the
buffer are retained (the fixed-size tail kept to catch a match straddling
the next chunk boundary).  The compiled category pattern is modelled as a
literal character-list pattern `p`. -/
def streamStep (p : List Char) (tail : Nat) (st : Nat × List Char)
    (chunk : List Char) : Nat × List Char :=
  let buf := st.2 ++ chunk
  let res := scanBuf p buf
  if res.1 = 0 then (st.1, buf.drop (buf.length - tail))
  else (st.1 + res.1, res.2)

/-- Modelled from the spec: `stream_count_elements` (spec §4.6), whose
defining module is missing from the sources.  The document arrives as a
list of chunks; the scanner starts from a zero count and an empty buffer
and feeds every chunk through `streamStep`, returning the final match
count. -/
def stream_count_elements (p : List Char) (tail : Nat)
    (chunks : List (List Char)) : Nat :=
  (chunks.foldl (streamStep p tail) (0, [])).1

/-- The changing-directory oracle for the eviction run: the very first
resolution yields `"u1"`, every later one yields `"u2"`. -/
def evictResolve : Nat → ActingKey → Option (List Char) :=
  fun i _ => if i = 0 then some ['u', '1'] else some ['u', '2']

/-- The eviction call sequence: the probed pair, then 16 distinct other
pairs (filling the 16-entry cache and evicting the probed pair), then the
probed pair again. -/
def evictSeq : List ActingKey :=
  (some ['A'], some ['z']) ::
    (['0', '1', '2', '3', '4', '5', '6', '7',
      '8', '9', 'a', 'c', 'd', 'e', 'f', 'g'].map
        (fun ch => (some ['A'], some [ch]))) ++
    [(some ['A'], some ['z'])]

/-- Concrete top-folders fixture for the BFS witness run. -/
def wTop : Except (List Char) (List TopF) := .ok [⟨['R'], projectFilesName⟩]

/-- Concrete folder-contents oracle for the BFS witness run: the root
holds one matching file and one subfolder, which is empty. -/
def wContents : List Char → Except (List Char) (List PItem) := fun i =>
  if i = ['R'] then
    .ok [⟨.fileKind, ['m', '.', 'r', 'v', 't'], ['I'], some ['V']⟩,
         ⟨.folderKind, ['s', 'u', 'b'], ['S'], none⟩]
  else .ok []

/-- Concrete search oracle for the resolver witness run: only the `"rvt"`
search finds the file. -/
def wSearch : List Char → Except (List Char) (List FileRec) := fun e =>
  if e = ['r', 'v', 't'] then
    .ok [⟨['m', '.', 'r', 'v', 't'], some ['U'], none, []⟩]
  else .ok []

/-- Concrete search oracle for the resolver counterexample: the file is
only found when searching for its own `"pdf"` extension, which is outside
the fixed common-extension list. -/
def pdfSearch : List Char → Except (List Char) (List FileRec) := fun e =>
  if e = ['p', 'd', 'f'] then
    .ok [⟨['p', '.', 'p', 'd', 'f'], some ['U'], none, []⟩]
  else .ok []

/-! ## Theorems -/

/-! ### Generic lemmas about the string machinery -/

theorem isPre_length {p s : List Char} (h : isPre p s = true) :
    p.length ≤ s.length := by
  induction p generalizing s with
  | nil => simp
  | cons a p ih =>
    cases s with
    | nil => simp [isPre] at h
    | cons b s =>
      simp only [isPre, Bool.and_eq_true] at h
      have := ih h.2
      simp only [List.length_cons]
      omega

theorem isPre_append_of_le (p s r : List Char) (h : p.length ≤ s.length) :
    isPre p (s ++ r) = isPre p s := by
  induction p generalizing s with
  | nil => cases s <;> rfl
  | cons a p ih =>
    cases s with
    | nil => simp at h
    | cons b s =>
      simp only [List.cons_append, isPre]
      rw [show s.append r = s ++ r from rfl, ih s (by simp at h; omega)]

/-! ### Claim C10 — `clean_id` removes every `"b."` occurrence -/

theorem clean_id_some (t : List Char) : clean_id (some t) = removeBDot t := by
  cases t <;> simp [clean_id, removeBDot]

theorem removeBDot_mid :
    ∀ (s t : List Char), isSub ['b', '.'] s = false →
      removeBDot (s ++ 'b' :: '.' :: t) = s ++ removeBDot t
  | [], t, _ => by simp [removeBDot]
  | [c], t, _ => by
    simp [removeBDot]
  | c1 :: c2 :: s, t, h => by
    have hsub : isSub ['b', '.'] (c2 :: s) = false := by
      rw [isSub] at h
      simp only [Bool.or_eq_false_iff] at h
      exact h.2
    have hpre : ¬(c1 = 'b' ∧ c2 = '.') := by
      rw [isSub] at h
      simp only [Bool.or_eq_false_iff] at h
      have h1 := h.1
      intro hc
      rw [isPre, hc.1, hc.2] at h1
      simp [isPre] at h1
    simp only [List.cons_append, removeBDot]
    rw [if_neg hpre]
    have h2 := removeBDot_mid (c2 :: s) t hsub
    simp only [List.cons_append, List.append_eq] at h2 ⊢
    rw [h2]

/-- Claim C10: `clean_id` maps `None` and the empty string to the empty
string, and removes every occurrence of the substring `"b."` anywhere in
the string — in particular an occurrence following an arbitrary
`"b."`-free portion `s` is removed, not only a leading prefix. -/
theorem C10_clean_id (s t : List Char) (h : isSub ['b', '.'] s = false) :
    clean_id none = [] ∧ clean_id (some []) = [] ∧
      clean_id (some (s ++ 'b' :: '.' :: t)) = s ++ clean_id (some t) := by
  refine ⟨rfl, rfl, ?_⟩
  rw [clean_id_some, clean_id_some]
  exact removeBDot_mid s t h

/-- Claim C10 witness: the decomposition theorem evaluated at a concrete
identifier with a `"b."` inside its opaque tail. -/
theorem C10_clean_id_witness :
    isSub ['b', '.'] ['u'] = false ∧
      (clean_id none = [] ∧ clean_id (some []) = [] ∧
        clean_id (some (['u'] ++ 'b' :: '.' :: ['v'])) =
          ['u'] ++ clean_id (some ['v'])) :=
  ⟨by decide, C10_clean_id ['u'] ['v'] (by decide)⟩

/-! ### Claim C5 — token reuse and expiry bookkeeping -/

/-- Claim C5: without `force_refresh`, while the current time is before the
cached expiry `get_token` issues no network exchange, returns the cached
token and leaves the cache untouched; whenever the exchange path runs and
succeeds, the cache stores the fresh token with expiry equal to the
acquisition time plus the advertised ttl minus the 60-second safety
margin. -/
theorem C5_get_token (credsOk force : Bool) (now now2 : Int)
    (exch : Except Nat (List Char × Int)) (c : TokenCache)
    (tok : List Char) (ttl : Int) :
    (credsOk = true → force = false → now < c.expires_at →
      get_token credsOk force now now2 exch c = .ok c.access_token c false) ∧
    (credsOk = true → ¬(force = false ∧ now < c.expires_at) →
      exch = .ok (tok, ttl) →
      get_token credsOk force now now2 exch c =
        .ok (some tok) ⟨some tok, now2 + ttl - 60⟩ true) := by
  constructor
  · intro hc hf hlt
    subst hc; subst hf
    simp [get_token, hlt]
  · intro hc hnot hex
    subst hc; subst hex
    have : ¬(¬force = true ∧ now < c.expires_at) := by
      intro hcontra
      exact hnot ⟨by simpa using hcontra.1, hcontra.2⟩
    simp only [get_token]
    rw [if_neg (by simp), if_neg this]

/-- Claim C5 witness: a warm cache call before expiry returns the cached
token with no exchange, and a cold call stores `now2 + ttl - 60`. -/
theorem C5_get_token_witness :
    get_token true false 5 7 (.ok (['n'], 100)) ⟨some ['t'], 10⟩ =
      .ok (some ['t']) ⟨some ['t'], 10⟩ false ∧
    get_token true false 20 21 (.ok (['n'], 100)) ⟨some ['t'], 10⟩ =
      .ok (some ['n']) ⟨some ['n'], 21 + 100 - 60⟩ true :=
  ⟨(C5_get_token true false 5 7 (.ok (['n'], 100)) ⟨some ['t'], 10⟩ ['n'] 100).1
      rfl rfl (by decide),
   (C5_get_token true false 20 21 (.ok (['n'], 100)) ⟨some ['t'], 10⟩ ['n'] 100).2
      rfl (by decide) rfl⟩

/-! ### Claim C6 — no serialization of concurrent refreshes -/

/-- Claim C6 counterexample: two callers that both pass the line-44 expiry
check before either writes each perform their own exchange — the
interleaving check-A, check-B, refresh-A, refresh-B performs two network
token exchanges, not one. -/
theorem C6_counterexample :
    raceRun 0 ['t'] 3600 [true, false, true, false] ⟨⟨none, 0⟩, 0, 0, 0⟩ =
      ⟨⟨some ['t'], 3540⟩, 2, 2, 2⟩ := rfl

/-- Claim C6 as amended: `get_token` has no lock, so whenever the cache is
expired, the check-A, check-B, refresh-A, refresh-B interleaving of two
callers performs exactly two token exchanges (one per racing caller) and
leaves the last writer's token cached. -/
theorem C6_race (c : TokenCache) (now : Int) (tok : List Char) (ttl : Int)
    (h : ¬now < c.expires_at) :
    (raceRun now tok ttl [true, false, true, false] ⟨c, 0, 0, 0⟩).exchanges = 2 ∧
    (raceRun now tok ttl [true, false, true, false] ⟨c, 0, 0, 0⟩).cache =
      ⟨some tok, now + ttl - 60⟩ := by
  constructor <;> simp [raceRun, raceStep, h]

/-- Claim C6 witness: the amended race theorem at an expired empty cache. -/
theorem C6_race_witness :
    ¬(0 : Int) < (⟨none, 0⟩ : TokenCache).expires_at ∧
    (raceRun 0 ['t'] 3600 [true, false, true, false]
      ⟨⟨none, 0⟩, 0, 0, 0⟩).exchanges = 2 :=
  ⟨by decide, (C6_race ⟨none, 0⟩ 0 ['t'] 3600 (by decide)).1⟩

/-! ### Claim C4 — identity memoization is a 16-entry LRU cache -/

/-- Claim C4 counterexample: after the memoized pair and 16 other distinct
pairs have been used, `@lru_cache(maxsize=16)` has evicted the first
entry, so a later call with the same pair re-runs the lookup strategies
(`ran = true`) and returns a different id than the one first memoized
during the same process lifetime. -/
theorem C4_counterexample :
    (actingUserRun evictResolve evictSeq).1.head? =
      some (some ['u', '1'], true) ∧
    (actingUserRun evictResolve evictSeq).1.getLast? =
      some (some ['u', '2'], true) := by decide

/-- Claim C4 as amended: while the `(account, email)` entry is still
present in the 16-entry LRU cache, a call returns the memoized id without
running the lookup strategies, and the entry keeps its value (it is never
overwritten); only eviction after 16 other distinct pairs (as in the
counterexample) can make the strategies run again. -/
theorem C4_memo_hit (resolve : Nat → ActingKey → Option (List Char))
    (i : Nat) (entries : List (ActingKey × Option (List Char)))
    (k : ActingKey) (v : Option (List Char))
    (h : lruLookup entries k = some v) :
    (get_acting_user_id resolve i entries k).1 = v ∧
    (get_acting_user_id resolve i entries k).2.2 = false ∧
    lruLookup (get_acting_user_id resolve i entries k).2.1 k = some v := by
  unfold lruLookup at h
  unfold get_acting_user_id lruCall
  cases hf : entries.find? (fun e => decide (e.1 = k)) with
  | none => rw [hf] at h; exact absurd h (by simp)
  | some e =>
    rw [hf] at h
    have hev : e.2 = v := by simpa using h
    have hek := List.find?_some hf
    refine ⟨hev, rfl, ?_⟩
    unfold lruLookup
    dsimp only
    have hfind : List.find? (fun x => decide (x.1 = k))
        (e :: entries.filter (fun x => decide (¬x.1 = k))) = some e := by
      rw [List.find?_cons]
      simp [hek]
    rw [hfind]
    simpa using hev

/-- Claim C4 witness: the amended hit theorem at a one-entry cache. -/
theorem C4_memo_hit_witness :
    lruLookup [((some ['A'], some ['e']), some ['u'])]
        ((some ['A'], some ['e'])) = some (some ['u']) ∧
    (get_acting_user_id evictResolve 3
        [((some ['A'], some ['e']), some ['u'])]
        ((some ['A'], some ['e']))).1 = some ['u'] :=
  ⟨by decide,
   (C4_memo_hit evictResolve 3 [((some ['A'], some ['e']), some ['u'])]
      ((some ['A'], some ['e'])) (some ['u']) (by decide)).1⟩

/-! ### Claims C3 and C9 — executor retry behavior -/

/-- Claim C3 counterexample: a 429 response to `make_api_request` is
returned immediately as an error string — the trace shows a single
request and no sleep, and the available follow-up 200 response is never
requested, so no advertised-wait sleep and no retry happen. -/
theorem C3_counterexample :
    make_api_request [⟨429, [0]⟩, ⟨200, [7]⟩] =
      (.errStr 429, [.tokenFetch false, .httpGet]) := rfl

/-- Claim C3 as amended: HTTP 429 receives no dedicated handling.
`make_api_request` returns the error string at once — one request, no
sleep, no retry — and `get_view_guid_only` treats a first-attempt 429
like any other failure: exactly one retry with a force-refreshed token,
no `Retry-After` sleep anywhere in the trace, and the second attempt's
outcome returned as is. -/
theorem C3_no_429_retry (st : Nat) (b : List Nat) (rest : List HttpResp)
    (views : List (List Char)) (r1 : VRes) (h : st = 429) :
    make_api_request (⟨st, b⟩ :: rest) =
      (.errStr 429, [.tokenFetch false, .httpGet]) ∧
    (get_view_guid_only (.http st views) r1).2 =
      [.tokenFetch false, .httpGet, .tokenFetch true, .httpGet] ∧
    (get_view_guid_only (.http st views) r1).1 = viewAttempt r1 := by
  subst h
  have hva : viewAttempt (.http 429 views) = .error (.apiErr 429) := by
    simp [viewAttempt]
  refine ⟨by simp [make_api_request], ?_, ?_⟩ <;>
    simp [get_view_guid_only, hva]

/-- Claim C3 witness: the amended theorem at a concrete 429 response. -/
theorem C3_no_429_retry_witness :
    429 = 429 ∧
    make_api_request [(⟨429, []⟩ : HttpResp)] =
      (.errStr 429, [.tokenFetch false, .httpGet]) :=
  ⟨rfl, (C3_no_429_retry 429 [] [] [] (.http 200 [['g']]) rfl).1⟩

/-- Claim C9: a 401 response with retry enabled makes `get_view_guid_only`
fetch a force-refreshed token and retry exactly once — the trace is
exactly two requests, the second preceded by a forced token fetch; a
401-then-200 run returns the first view GUID of the second response, and
a 401 on the retry is surfaced as the auth error, not retried again. -/
theorem C9_401_retry (views0 : List (List Char)) (r1 : VRes) :
    (get_view_guid_only (.http 401 views0) r1).2 =
      [.tokenFetch false, .httpGet, .tokenFetch true, .httpGet] ∧
    (∀ (g : List Char) (gs : List (List Char)), r1 = .http 200 (g :: gs) →
      (get_view_guid_only (.http 401 views0) r1).1 = .ok g) ∧
    (∀ views1 : List (List Char), r1 = .http 401 views1 →
      (get_view_guid_only (.http 401 views0) r1).1 = .error .authFail) := by
  have hva : viewAttempt (.http 401 views0) = .error .authFail := by
    simp [viewAttempt]
  refine ⟨by simp [get_view_guid_only, hva], ?_, ?_⟩
  · intro g gs hr
    subst hr
    simp [get_view_guid_only, hva, viewAttempt]
  · intro views1 hr
    subst hr
    simp [get_view_guid_only, hva, viewAttempt]

/-- Claim C9 witness: a simulated 401-then-200 run yields the 200's GUID
after exactly two requests, the second after a forced refresh. -/
theorem C9_401_retry_witness :
    (get_view_guid_only (.http 401 []) (.http 200 [['g']])).1 = .ok ['g'] ∧
    (get_view_guid_only (.http 401 []) (.http 200 [['g']])).2 =
      [.tokenFetch false, .httpGet, .tokenFetch true, .httpGet] :=
  ⟨(C9_401_retry [] (.http 200 [['g']])).2.1 ['g'] [] rfl,
   (C9_401_retry [] (.http 200 [['g']])).1⟩

/-! ### Claim C2 — pagination failure handling -/

set_option maxHeartbeats 2000000 in
theorem fetchLoop_cons_http (style : PStyle) (lim : Nat) (imp : Bool)
    (hubId adminId : Option (List Char)) (st : Nat) (batch : List Nat)
    (nxt : Option (List Char)) (rest : List PEvent) (u : List Char)
    (offs pc : Nat) (acc : List Nat) (fr : Bool) (hpc : pc < 50) :
    fetchLoop style lim imp hubId adminId (.http st batch nxt :: rest)
        (some u) offs pc acc fr =
      if st = 403 ∨ st = 404 then .ok acc
      else if st ≠ 200 then (if fr then .err st else .ok acc)
      else
        fetchLoop style lim imp hubId adminId rest
          (match style with
           | .url => nxt
           | .offset => if batch.length < lim then none else some u)
          (match style with
           | .url => offs
           | .offset => if batch.length < lim then offs else offs + lim)
          (pc + 1) (acc ++ batch) false := by
  have hpc2 : ¬50 ≤ pc := by omega
  rw [fetchLoop.eq_def]
  dsimp only
  rw [if_neg hpc2]
  rcases hubId with _ | h <;> rcases adminId with _ | a <;> cases imp <;> simp

theorem fetchLoop_none (style : PStyle) (lim : Nat) (imp : Bool)
    (hubId adminId : Option (List Char)) (events : List PEvent)
    (offs pc : Nat) (acc : List Nat) (fr : Bool) :
    fetchLoop style lim imp hubId adminId events none offs pc acc fr =
      .ok acc := by
  rw [fetchLoop.eq_def]

theorem fetchLoop_stops (style : PStyle) (lim : Nat) (imp : Bool)
    (hubId adminId : Option (List Char)) (events : List PEvent)
    (u : List Char) (offs pc : Nat) (acc : List Nat) (fr : Bool)
    (h : 50 ≤ pc ∨ events = [] ∨ (∃ rest, events = .exn :: rest)) :
    fetchLoop style lim imp hubId adminId events (some u) offs pc acc fr =
      .ok acc := by
  rw [fetchLoop.eq_def]
  dsimp only
  by_cases hpc : 50 ≤ pc
  · rw [if_pos hpc]
  · rw [if_neg hpc]
    rcases h with h | h | ⟨rest, h⟩
    · exact absurd h hpc
    · subst h; rfl
    · subst h; rfl

theorem fetchLoop_ok_of_not_first (style : PStyle) (lim : Nat) (imp : Bool)
    (hubId adminId : Option (List Char)) :
    ∀ (n : Nat) (events : List PEvent), events.length ≤ n →
      ∀ (cu : Option (List Char)) (offs pc : Nat) (acc : List Nat),
        ∃ l, fetchLoop style lim imp hubId adminId events cu offs pc acc
          false = .ok l := by
  intro n
  induction n with
  | zero =>
    intro events hlen cu offs pc acc
    have he : events = [] := by
      cases events with
      | nil => rfl
      | cons e rest => simp at hlen
    subst he
    cases cu with
    | none => exact ⟨acc, fetchLoop_none ..⟩
    | some u => exact ⟨acc, fetchLoop_stops _ _ _ _ _ _ _ _ _ _ _ (.inr (.inl rfl))⟩
  | succ n ih =>
    intro events hlen cu offs pc acc
    cases cu with
    | none => exact ⟨acc, fetchLoop_none ..⟩
    | some u =>
      by_cases hpc : 50 ≤ pc
      · exact ⟨acc, fetchLoop_stops _ _ _ _ _ _ _ _ _ _ _ (.inl hpc)⟩
      · cases events with
        | nil => exact ⟨acc, fetchLoop_stops _ _ _ _ _ _ _ _ _ _ _ (.inr (.inl rfl))⟩
        | cons e rest =>
          cases e with
          | exn =>
            exact ⟨acc, fetchLoop_stops _ _ _ _ _ _ _ _ _ _ _
              (.inr (.inr ⟨rest, rfl⟩))⟩
          | http st batch nxt =>
            rw [fetchLoop_cons_http _ _ _ _ _ _ _ _ _ _ _ _ _ _
              (by omega : pc < 50)]
            by_cases h34 : st = 403 ∨ st = 404
            · rw [if_pos h34]; exact ⟨acc, rfl⟩
            · rw [if_neg h34]
              by_cases h200 : st ≠ 200
              · rw [if_pos h200]; exact ⟨acc, rfl⟩
              · rw [if_neg h200]
                exact ih rest (by simp at hlen; omega) _ _ _ _

/-- Claim C2 counterexample: a 404 on the very first page request makes
`fetch_paginated_data` return the empty item list — not an explicit error
value — because the 403/404 branch of line 763 breaks before the
fail-loudly check of lines 768-773 is reached. -/
theorem C2_counterexample :
    fetch_paginated_data .url 100 false none none [.http 404 [] none] ['u'] =
      .ok [] := rfl

/-- Claim C2 as amended: a first page answered with a non-success status
other than 403 and 404 is surfaced as an explicit error value; a 403/404
(and a transport exception) is deliberately treated as an empty result
even on the first page; and once the first page has been retrieved, the
engine never raises — any later-page failure ends pagination with the
partial list accumulated so far (shown concretely for a link-style run:
one good page then a failing one returns exactly the first batch). -/
theorem C2_pagination (style : PStyle) (lim : Nat) (imp : Bool)
    (hubId adminId : Option (List Char)) (url0 u1 : List Char)
    (st st2 : Nat) (batch b1 b2 : List Nat) (nxt n2 : Option (List Char))
    (rest rest2 : List PEvent) :
    (st ≠ 200 → st ≠ 403 → st ≠ 404 →
      fetch_paginated_data style lim imp hubId adminId
        (.http st batch nxt :: rest) url0 = .err st) ∧
    (∀ (events : List PEvent) (cu : Option (List Char)) (offs pc : Nat)
        (acc : List Nat), ∃ l,
      fetchLoop style lim imp hubId adminId events cu offs pc acc false =
        .ok l) ∧
    (st2 ≠ 200 →
      fetch_paginated_data .url lim imp hubId adminId
        (.http 200 b1 (some u1) :: .http st2 b2 n2 :: rest2) url0 =
          .ok b1) := by
  refine ⟨?_, ?_, ?_⟩
  · intro h200 h403 h404
    unfold fetch_paginated_data
    rw [fetchLoop_cons_http _ _ _ _ _ _ _ _ _ _ _ _ _ _ (by omega)]
    rw [if_neg (by simp [h403, h404]), if_pos h200, if_pos rfl]
  · intro events cu offs pc acc
    exact fetchLoop_ok_of_not_first style lim imp hubId adminId
      events.length events le_rfl cu offs pc acc
  · intro h200
    unfold fetch_paginated_data
    rw [fetchLoop_cons_http _ _ _ _ _ _ _ _ _ _ _ _ _ _ (by omega)]
    rw [if_neg (by omega), if_neg (by simp)]
    rw [fetchLoop_cons_http _ _ _ _ _ _ _ _ _ _ _ _ _ _ (by omega)]
    by_cases h34 : st2 = 403 ∨ st2 = 404
    · rw [if_pos h34]; simp
    · rw [if_neg h34, if_pos h200, if_neg (by simp)]
      simp

/-- Claim C2 witness: the amended theorem at a concrete failing-first-page
run (500 → explicit error) and a concrete good-page-then-failure run
(200 then 500 → the first page's items). -/
theorem C2_pagination_witness :
    fetch_paginated_data .url 100 false none none [.http 500 [] none] ['u'] =
      .err 500 ∧
    fetch_paginated_data .url 100 false none none
      [.http 200 [1, 2] (some ['n']), .http 500 [] none] ['u'] = .ok [1, 2] :=
  ⟨(C2_pagination .url 100 false none none ['u'] ['n'] 500 500 [] [] []
      none none [] []).1 (by decide) (by decide) (by decide),
   (C2_pagination .url 100 false none none ['u'] ['n'] 500 500 [] [1, 2] []
      none none [] []).2.2 (by decide)⟩

/-! ### Claim C7 — BFS caps and boundary-depth behavior -/

theorem bfsLoop_zero (contents : List Char → Except (List Char) (List PItem))
    (extList : List (List Char)) (qs : List QEntry) (files : List FileRec)
    (tr : List QEntry) :
    bfsLoop contents extList 0 qs files tr = (files, tr) := by
  cases qs <;> simp [bfsLoop]

theorem bfsLoop_trace_len (contents : List Char → Except (List Char) (List PItem))
    (extList : List (List Char)) :
    ∀ (fuel : Nat) (qs : List QEntry) (files : List FileRec)
      (tr : List QEntry),
      (bfsLoop contents extList fuel qs files tr).2.length ≤
        tr.length + fuel := by
  intro fuel
  induction fuel with
  | zero => intro qs files tr; cases qs <;> simp [bfsLoop]
  | succ fuel ih =>
    intro qs files tr
    cases qs with
    | nil => simp [bfsLoop]
    | cons q qs =>
      have := ih (qs ++ folderChildren contents q)
        (files ++ folderFiles contents extList q) (tr ++ [q])
      simp only [bfsLoop]
      simp [List.length_append] at this ⊢
      omega

theorem folderChildren_depth (contents : List Char → Except (List Char) (List PItem))
    (q : QEntry) : ∀ x ∈ folderChildren contents q, x.depth ≤ 3 := by
  intro x hx
  unfold folderChildren at hx
  cases hcq : contents q.id with
  | error s => rw [hcq] at hx; simp at hx
  | ok items =>
    rw [hcq] at hx
    dsimp only at hx
    by_cases hd : q.depth < 3
    · rw [if_pos hd] at hx
      simp only [List.mem_map] at hx
      obtain ⟨it, _, hit⟩ := hx
      subst hit
      dsimp only
      omega
    · rw [if_neg hd] at hx
      simp at hx

theorem bfsLoop_depth (contents : List Char → Except (List Char) (List PItem))
    (extList : List (List Char)) :
    ∀ (fuel : Nat) (qs : List QEntry) (files : List FileRec)
      (tr : List QEntry),
      (∀ q ∈ qs, q.depth ≤ 3) → (∀ q ∈ tr, q.depth ≤ 3) →
      ∀ q ∈ (bfsLoop contents extList fuel qs files tr).2, q.depth ≤ 3 := by
  intro fuel
  induction fuel with
  | zero =>
    intro qs files tr _ htr
    rw [bfsLoop_zero]
    exact htr
  | succ fuel ih =>
    intro qs files tr hqs htr
    cases qs with
    | nil =>
      intro x hx
      exact htr x (by simpa [bfsLoop] using hx)
    | cons q qs =>
      simp only [bfsLoop]
      apply ih
      · intro x hx
        rcases List.mem_append.mp hx with hx | hx
        · exact hqs x (List.mem_cons_of_mem _ hx)
        · exact folderChildren_depth contents q x hx
      · intro x hx
        rcases List.mem_append.mp hx with hx | hx
        · exact htr x hx
        · have : x = q := by simpa using hx
          subst this
          exact hqs x (List.mem_cons_self x qs)

theorem bfsLoop_files (contents : List Char → Except (List Char) (List PItem))
    (extList : List (List Char)) :
    ∀ (fuel : Nat) (qs : List QEntry) (files : List FileRec)
      (tr : List QEntry), ∃ newtr,
      (bfsLoop contents extList fuel qs files tr).2 = tr ++ newtr ∧
      (bfsLoop contents extList fuel qs files tr).1 =
        files ++ newtr.flatMap (folderFiles contents extList) := by
  intro fuel
  induction fuel with
  | zero =>
    intro qs files tr
    exact ⟨[], by simp [bfsLoop_zero]⟩
  | succ fuel ih =>
    intro qs files tr
    cases qs with
    | nil => exact ⟨[], by simp [bfsLoop]⟩
    | cons q qs =>
      obtain ⟨ntr, h2, h1⟩ := ih (qs ++ folderChildren contents q)
        (files ++ folderFiles contents extList q) (tr ++ [q])
      refine ⟨q :: ntr, ?_, ?_⟩
      · simp only [bfsLoop]
        rw [h2]
        simp
      · simp only [bfsLoop]
        rw [h1]
        simp

theorem C7_core (contents : List Char → Except (List Char) (List PItem))
    (extList : List (List Char)) (rootId : List Char)
    (out : List FileRec) (trace : List QEntry)
    (hpair : bfsLoop contents extList 50
      [⟨rootId, projectFilesName, 0⟩] [] [] = (out, trace)) :
    trace.length ≤ 50 ∧ (∀ q ∈ trace, q.depth ≤ 3) ∧
      out = trace.flatMap (folderFiles contents extList) := by
  have htrace : trace = (bfsLoop contents extList 50
      [⟨rootId, projectFilesName, 0⟩] [] []).2 := by rw [hpair]
  have hout : out = (bfsLoop contents extList 50
      [⟨rootId, projectFilesName, 0⟩] [] []).1 := by rw [hpair]
  refine ⟨?_, ?_, ?_⟩
  · rw [htrace]
    have := bfsLoop_trace_len contents extList 50
      [⟨rootId, projectFilesName, 0⟩] [] []
    simpa using this
  · rw [htrace]
    apply bfsLoop_depth
    · intro q hq
      rcases List.mem_singleton.mp hq with rfl
      exact Nat.zero_le 3
    · intro q hq
      simp at hq
  · obtain ⟨ntr, h2, h1⟩ := bfsLoop_files contents extList 50
      [⟨rootId, projectFilesName, 0⟩] [] []
    rw [hout, htrace, h1, h2]
    simp

/-- Claim C7: every successful `find_design_files` walk scans at most the
hard 50-folder cap; no scanned folder has depth above the depth cap 3
(folders at depth 3 are dequeued but their subfolders are never enqueued);
the returned files are exactly the matching direct file contents of the
scanned folders — including those at the boundary depth; and the BFS loop
with an exhausted folder budget returns immediately regardless of the
remaining queue contents. -/
theorem C7_bfs_caps (top : Except (List Char) (List TopF))
    (contents : List Char → Except (List Char) (List PItem))
    (extensions : List Char) (out : List FileRec) (trace : List QEntry)
    (h : find_design_files top contents extensions = .ok (out, trace)) :
    trace.length ≤ 50 ∧
    (∀ q ∈ trace, q.depth ≤ 3) ∧
    out = trace.flatMap (folderFiles contents (parseExts extensions)) ∧
    (∀ (qs : List QEntry) (files : List FileRec) (tr : List QEntry),
      bfsLoop contents (parseExts extensions) 0 qs files tr = (files, tr)) := by
  have hz := bfsLoop_zero contents (parseExts extensions)
  cases top with
  | error s => simp [find_design_files] at h
  | ok tfs =>
    simp only [find_design_files] at h
    split at h <;> split at h <;>
      first
        | exact Except.noConfusion h
        | (injection h with h
           exact ⟨(C7_core _ _ _ _ _ h).1, (C7_core _ _ _ _ _ h).2.1,
                  (C7_core _ _ _ _ _ h).2.2, fun qs files tr => hz qs files tr⟩)

/-- Claim C7 witness: the caps theorem at a concrete two-folder tree. -/
theorem C7_bfs_caps_witness :
    find_design_files wTop wContents ['r', 'v', 't'] =
      .ok ([⟨['m', '.', 'r', 'v', 't'], some ['I'], some ['V'],
              projectFilesName⟩],
           [⟨['R'], projectFilesName, 0⟩,
            ⟨['S'], projectFilesName ++ '/' :: ['s', 'u', 'b'], 1⟩]) ∧
    ([⟨['R'], projectFilesName, 0⟩,
      ⟨['S'], projectFilesName ++ '/' :: ['s', 'u', 'b'], 1⟩] :
        List QEntry).length ≤ 50 ∧
    [⟨['m', '.', 'r', 'v', 't'], some ['I'], some ['V'], projectFilesName⟩] =
      ([⟨['R'], projectFilesName, 0⟩,
        ⟨['S'], projectFilesName ++ '/' :: ['s', 'u', 'b'], 1⟩] :
          List QEntry).flatMap
        (folderFiles wContents (parseExts ['r', 'v', 't'])) :=
  ⟨rfl,
   (C7_bfs_caps wTop wContents ['r', 'v', 't'] _ _ rfl).1,
   (C7_bfs_caps wTop wContents ['r', 'v', 't'] _ _ rfl).2.2.1⟩

/-! ### Claim C8 — filename resolution order and exhaustion -/

theorem tryExts_none (oracle : List Char → Except (List Char) (List FileRec))
    (identifier : List Char) :
    ∀ es : List (List Char),
      (∀ e ∈ es, ∀ files, oracle e = .ok files →
        firstMatch identifier files = none) →
      tryExts oracle identifier es = none := by
  intro es
  induction es with
  | nil => intro _; rfl
  | cons e es ih =>
    intro h
    unfold tryExts
    cases ho : oracle e with
    | error s => exact ih (fun x hx => h x (List.mem_cons_of_mem _ hx))
    | ok files =>
      dsimp only
      rw [h e (List.mem_cons_self e es) files ho]
      exact ih (fun x hx => h x (List.mem_cons_of_mem _ hx))

/-- Claim C8 counterexample: for the bare filename `"p.pdf"`, whose
extension `"pdf"` is not in the fixed common list, the resolver never
tries the filename's own extension — a file findable only under `"pdf"`
ends in the structured not-found error even though it exists. -/
theorem C8_counterexample :
    resolve_file_to_urn (some ['h']) pdfSearch ['p', '.', 'p', 'd', 'f'] =
      .error .notFoundR ∧
    pdfSearch ['p', 'd', 'f'] =
      .ok [⟨['p', '.', 'p', 'd', 'f'], some ['U'], none, []⟩] ∧
    fileExtOf ['p', '.', 'p', 'd', 'f'] = ['p', 'd', 'f'] ∧
    (extOrderOf ['p', '.', 'p', 'd', 'f']).contains ['p', 'd', 'f'] = false :=
  ⟨rfl, rfl, rfl, rfl⟩

/-- Claim C8 as amended: for a bare filename the resolver searches the
fixed common-extension list, moving the filename's own extension to the
front only when it already belongs to that list (an extension outside the
list is never tried); within a search the first case-insensitive
exact-or-substring match with a truthy item id wins; and once every
extension in the order is exhausted without a match the resolver fails
with the structured not-found `ValueError`. -/
theorem C8_resolver (hub : Option (List Char)) (hcase : List Char)
    (oracle : List Char → Except (List Char) (List FileRec))
    (identifier e0 : List Char) (restExts : List (List Char))
    (files0 : List FileRec) (urn : List Char)
    (hhub : hub = some hcase)
    (hurn : isPre ['u', 'r', 'n', ':', 'a', 'd', 's', 'k'] identifier =
      false) :
    (identifier.contains '.' = true →
      commonExts.contains (fileExtOf identifier) = true →
      extOrderOf identifier =
        fileExtOf identifier :: commonExts.erase (fileExtOf identifier)) ∧
    (commonExts.contains (fileExtOf identifier) = false →
      extOrderOf identifier = commonExts) ∧
    (extOrderOf identifier = e0 :: restExts → oracle e0 = .ok files0 →
      firstMatch identifier files0 = some urn →
      resolve_file_to_urn hub oracle identifier = .ok urn) ∧
    (extOrderOf identifier = e0 :: restExts → oracle e0 = .ok files0 →
      firstMatch identifier files0 = none →
      (∀ e ∈ restExts, ∀ files, oracle e = .ok files →
        firstMatch identifier files = none) →
      resolve_file_to_urn hub oracle identifier = .error .notFoundR) := by
  subst hhub
  refine ⟨?_, ?_, ?_, ?_⟩
  · intro hdot hmem
    unfold extOrderOf
    rw [if_pos hdot, if_pos hmem]
  · intro hmem
    unfold extOrderOf
    by_cases hdot : identifier.contains '.' = true
    · rw [if_pos hdot, if_neg (by rw [hmem]; simp)]
    · rw [if_neg hdot]
  · intro hext ho hfm
    unfold resolve_file_to_urn
    rw [if_neg (by simp [hurn])]
    rw [hext]
    dsimp only
    rw [ho]
    dsimp only
    rw [hfm]
  · intro hext ho hfm hrest
    unfold resolve_file_to_urn
    rw [if_neg (by simp [hurn])]
    rw [hext]
    dsimp only
    rw [ho]
    dsimp only
    rw [hfm]
    dsimp only
    rw [tryExts_none oracle identifier restExts hrest]

/-- Claim C8 witness: the amended theorem's first-match conjunct at the
concrete filename `"m.rvt"`. -/
theorem C8_resolver_witness :
    resolve_file_to_urn (some ['h']) wSearch ['m', '.', 'r', 'v', 't'] =
      .ok ['U'] :=
  (C8_resolver (some ['h']) ['h'] wSearch ['m', '.', 'r', 'v', 't']
      ['r', 'v', 't']
      [['d', 'w', 'g'], ['n', 'w', 'c'], ['r', 'c', 'p'], ['i', 'f', 'c'],
       ['n', 'w', 'd']]
      [⟨['m', '.', 'r', 'v', 't'], some ['U'], none, []⟩] ['U']
      rfl (by decide)).2.2.1 (by decide) rfl (by decide)

/-! ### Claim C1 — the streaming scanner counts occurrences exactly -/

theorem scanBufF_fuel (p : List Char) (hp : p ≠ []) :
    ∀ (s : List Char) (n m : Nat), s.length ≤ n → s.length ≤ m →
      scanBufF n p s = scanBufF m p s
  | [], n, m, _, _ => by cases n <;> cases m <;> rfl
  | c :: t, n, m, hn, hm => by
    have hp1 : 1 ≤ p.length := by
      cases p with
      | nil => exact absurd rfl hp
      | cons a q => simp
    cases n with
    | zero => simp at hn
    | succ n =>
      cases m with
      | zero => simp at hm
      | succ m =>
        have hd1 : ((c :: t).drop p.length).length ≤ n := by
          simp only [List.length_drop, List.length_cons] at *
          omega
        have hd2 : ((c :: t).drop p.length).length ≤ m := by
          simp only [List.length_drop, List.length_cons] at *
          omega
        have ht1 : t.length ≤ n := by simp at hn; omega
        have ht2 : t.length ≤ m := by simp at hm; omega
        simp only [scanBufF]
        rw [scanBufF_fuel p hp ((c :: t).drop p.length) n m hd1 hd2,
            scanBufF_fuel p hp t n m ht1 ht2]
termination_by s _ _ _ _ => s.length
decreasing_by
  · simp only [List.length_drop, List.length_cons]
    omega
  · simp only [List.length_cons]
    omega

theorem scanBuf_cons (p : List Char) (hp : p ≠ []) (c : Char) (t : List Char) :
    scanBuf p (c :: t) =
      if isPre p (c :: t) then
        if (scanBuf p ((c :: t).drop p.length)).1 = 0 then
          (1, (c :: t).drop p.length)
        else ((scanBuf p ((c :: t).drop p.length)).1 + 1,
              (scanBuf p ((c :: t).drop p.length)).2)
      else
        if (scanBuf p t).1 = 0 then (0, c :: t) else scanBuf p t := by
  have hp1 : 1 ≤ p.length := by
    cases p with
    | nil => exact absurd rfl hp
    | cons a q => simp
  show scanBufF (c :: t).length p (c :: t) = _
  have hlc : (c :: t).length = t.length + 1 := by simp
  rw [hlc]
  simp only [scanBufF]
  rw [scanBufF_fuel p hp ((c :: t).drop p.length) t.length
        ((c :: t).drop p.length).length
        (by simp only [List.length_drop, List.length_cons]; omega) le_rfl,
      scanBufF_fuel p hp t t.length t.length le_rfl le_rfl]
  rfl

theorem countOccs_cons_pos (p : List Char) (hp : p ≠ []) (c : Char)
    (t : List Char) (h : isPre p (c :: t) = true) :
    countOccs p (c :: t) = countOccs p ((c :: t).drop p.length) + 1 := by
  unfold countOccs
  rw [scanBuf_cons p hp, if_pos h]
  by_cases h0 : (scanBuf p ((c :: t).drop p.length)).1 = 0
  · rw [if_pos h0, h0]
  · rw [if_neg h0]

theorem countOccs_cons_neg (p : List Char) (hp : p ≠ []) (c : Char)
    (t : List Char) (h : isPre p (c :: t) = false) :
    countOccs p (c :: t) = countOccs p t := by
  unfold countOccs
  rw [scanBuf_cons p hp, if_neg (by simp [h])]
  by_cases h0 : (scanBuf p t).1 = 0
  · rw [if_pos h0, h0]
  · rw [if_neg h0]

theorem countOccs_zero_of_short (p : List Char) (hp : p ≠ []) :
    ∀ s : List Char, s.length < p.length → countOccs p s = 0 := by
  intro s
  induction s with
  | nil => intro _; rfl
  | cons c t ih =>
    intro hlen
    cases hpre : isPre p (c :: t) with
    | true =>
      have := isPre_length hpre
      omega
    | false =>
      rw [countOccs_cons_neg p hp c t hpre]
      exact ih (by simp at hlen ⊢; omega)

theorem countOccs_tail_zero (p : List Char) (hp : p ≠ []) (c : Char)
    (t : List Char) (h : countOccs p (c :: t) = 0) : countOccs p t = 0 := by
  cases hpre : isPre p (c :: t) with
  | true => rw [countOccs_cons_pos p hp c t hpre] at h; omega
  | false => rw [countOccs_cons_neg p hp c t hpre] at h; exact h

theorem scanBuf_decomp (p : List Char) (hp : p ≠ []) :
    ∀ (s rest : List Char),
      countOccs p (s ++ rest) =
        (scanBuf p s).1 + countOccs p ((scanBuf p s).2 ++ rest)
  | [], rest => by simp [scanBuf, scanBufF, countOccs]
  | c :: t, rest => by
    have hp1 : 1 ≤ p.length := by
      cases p with
      | nil => exact absurd rfl hp
      | cons a q => simp
    by_cases hpre : isPre p (c :: t) = true
    · have hple : p.length ≤ (c :: t).length := isPre_length hpre
      have hpre2 : isPre p ((c :: t) ++ rest) = true := by
        rw [isPre_append_of_le p (c :: t) rest hple]
        exact hpre
      have hlhs : countOccs p ((c :: t) ++ rest) =
          countOccs p ((c :: t).drop p.length ++ rest) + 1 := by
        rw [List.cons_append] at hpre2 ⊢
        rw [countOccs_cons_pos p hp c (t ++ rest) hpre2,
            ← List.cons_append,
            List.drop_append_of_le_length hple]
      rw [scanBuf_cons p hp, if_pos hpre]
      by_cases h0 : (scanBuf p ((c :: t).drop p.length)).1 = 0
      · rw [if_pos h0]
        dsimp only
        omega
      · rw [if_neg h0]
        have hIH := scanBuf_decomp p hp ((c :: t).drop p.length) rest
        dsimp only
        omega
    · have hpre' : isPre p (c :: t) = false := by
        cases hx : isPre p (c :: t) with
        | true => exact absurd hx hpre
        | false => rfl
      rw [scanBuf_cons p hp, if_neg (by simp [hpre'])]
      by_cases h0 : (scanBuf p t).1 = 0
      · rw [if_pos h0]
        simp
      · rw [if_neg h0]
        have hlen : p.length ≤ t.length := by
          by_contra hc
          exact h0 (countOccs_zero_of_short p hp t (by omega))
        have hpre3 : isPre p ((c :: t) ++ rest) = false := by
          rw [isPre_append_of_le p (c :: t) rest (by simp; omega)]
          exact hpre'
        have hlhs : countOccs p ((c :: t) ++ rest) =
            countOccs p (t ++ rest) := by
          rw [List.cons_append] at hpre3 ⊢
          exact countOccs_cons_neg p hp c (t ++ rest) hpre3
        have hIH := scanBuf_decomp p hp t rest
        rw [hlhs]
        exact hIH
termination_by s _ => s.length
decreasing_by
  · simp only [List.length_drop, List.length_cons]
    omega
  · simp only [List.length_cons]
    omega

theorem scanBuf_rem_clean (p : List Char) (hp : p ≠ []) :
    ∀ s : List Char, countOccs p (scanBuf p s).2 = 0
  | [] => by simp [scanBuf, scanBufF, countOccs]
  | c :: t => by
    have hp1 : 1 ≤ p.length := by
      cases p with
      | nil => exact absurd rfl hp
      | cons a q => simp
    rw [scanBuf_cons p hp]
    by_cases hpre : isPre p (c :: t) = true
    · rw [if_pos hpre]
      by_cases h0 : (scanBuf p ((c :: t).drop p.length)).1 = 0
      · rw [if_pos h0]
        exact h0
      · rw [if_neg h0]
        exact scanBuf_rem_clean p hp ((c :: t).drop p.length)
    · rw [if_neg hpre]
      by_cases h0 : (scanBuf p t).1 = 0
      · rw [if_pos h0]
        have hpre' : isPre p (c :: t) = false := by
          cases hx : isPre p (c :: t) with
          | true => exact absurd hx hpre
          | false => rfl
        dsimp only
        rw [countOccs_cons_neg p hp c t hpre']
        exact h0
      · rw [if_neg h0]
        exact scanBuf_rem_clean p hp t
termination_by s => s.length
decreasing_by
  · simp only [List.length_drop, List.length_cons]
    omega
  · simp only [List.length_cons]
    omega

theorem countOccs_drop_zero (p : List Char) (hp : p ≠ []) :
    ∀ (s : List Char) (k : Nat), countOccs p s = 0 →
      countOccs p (s.drop k) = 0 := by
  intro s
  induction s with
  | nil => intro k _; simp; rfl
  | cons c t ih =>
    intro k h
    cases k with
    | zero => exact h
    | succ k =>
      rw [List.drop_succ_cons]
      exact ih k (countOccs_tail_zero p hp c t h)

theorem countOccs_tail_drop (p : List Char) (hp : p ≠ []) (tail : Nat)
    (htail : p.length ≤ tail + 1) :
    ∀ (s rest : List Char), countOccs p s = 0 →
      countOccs p (s.drop (s.length - tail) ++ rest) =
        countOccs p (s ++ rest) := by
  intro s
  induction s with
  | nil => intro rest _; simp
  | cons c t ih =>
    intro rest h
    by_cases hlen : (c :: t).length ≤ tail
    · have hz : (c :: t).length - tail = 0 := by omega
      rw [hz, List.drop_zero]
    · have hslen : p.length ≤ (c :: t).length := by
        simp only [List.length_cons] at *
        omega
      have hpre : isPre p (c :: t) = false := by
        cases hx : isPre p (c :: t) with
        | true =>
          rw [countOccs_cons_pos p hp c t hx] at h
          omega
        | false => rfl
      have hpre2 : isPre p ((c :: t) ++ rest) = false := by
        rw [isPre_append_of_le p (c :: t) rest hslen]
        exact hpre
      have ht0 : countOccs p t = 0 := countOccs_tail_zero p hp c t h
      have harith : (c :: t).length - tail = (t.length - tail) + 1 := by
        simp only [List.length_cons] at *
        omega
      rw [harith, List.drop_succ_cons]
      have hr : countOccs p ((c :: t) ++ rest) = countOccs p (t ++ rest) := by
        rw [List.cons_append]
        exact countOccs_cons_neg p hp c (t ++ rest)
          (by rw [← List.cons_append]; exact hpre2)
      rw [hr]
      exact ih rest ht0

theorem streamStep_spec (p : List Char) (hp : p ≠ []) (tail : Nat)
    (htail : p.length ≤ tail + 1) (count : Nat) (buf chunk : List Char) :
    (∀ r : List Char,
      (streamStep p tail (count, buf) chunk).1 +
        countOccs p ((streamStep p tail (count, buf) chunk).2 ++ r) =
      count + countOccs p ((buf ++ chunk) ++ r)) ∧
    countOccs p (streamStep p tail (count, buf) chunk).2 = 0 := by
  unfold streamStep
  dsimp only
  by_cases h0 : (scanBuf p (buf ++ chunk)).1 = 0
  · rw [if_pos h0]
    have hc0 : countOccs p (buf ++ chunk) = 0 := h0
    constructor
    · intro r
      dsimp only
      rw [countOccs_tail_drop p hp tail htail (buf ++ chunk) r hc0]
    · exact countOccs_drop_zero p hp (buf ++ chunk) _ hc0
  · rw [if_neg h0]
    constructor
    · intro r
      dsimp only
      have := scanBuf_decomp p hp (buf ++ chunk) r
      omega
    · exact scanBuf_rem_clean p hp (buf ++ chunk)

theorem streamRun_invariant (p : List Char) (hp : p ≠ []) (tail : Nat)
    (htail : p.length ≤ tail + 1) :
    ∀ (chunks : List (List Char)) (count : Nat) (buf : List Char),
      (chunks.foldl (streamStep p tail) (count, buf)).1 +
        countOccs p (chunks.foldl (streamStep p tail) (count, buf)).2 =
      count + countOccs p (buf ++ chunks.flatten) := by
  intro chunks
  induction chunks with
  | nil => intro count buf; simp
  | cons ch cs ih =>
    intro count buf
    rw [List.foldl_cons]
    have hstep := (streamStep_spec p hp tail htail count buf ch).1 cs.flatten
    have hfold := ih (streamStep p tail (count, buf) ch).1
      (streamStep p tail (count, buf) ch).2
    rw [List.flatten_cons, ← List.append_assoc]
    calc (cs.foldl (streamStep p tail) (streamStep p tail (count, buf) ch)).1 +
          countOccs p
            (cs.foldl (streamStep p tail) (streamStep p tail (count, buf) ch)).2
        = (streamStep p tail (count, buf) ch).1 +
            countOccs p ((streamStep p tail (count, buf) ch).2 ++
              cs.flatten) := by
          rw [← hfold]
      _ = count + countOccs p (buf ++ ch ++ cs.flatten) := hstep

theorem streamRun_clean (p : List Char) (hp : p ≠ []) (tail : Nat)
    (htail : p.length ≤ tail + 1) :
    ∀ (chunks : List (List Char)) (count : Nat) (buf : List Char),
      countOccs p buf = 0 →
      countOccs p (chunks.foldl (streamStep p tail) (count, buf)).2 = 0 := by
  intro chunks
  induction chunks with
  | nil => intro count buf h; exact h
  | cons ch cs ih =>
    intro count buf _
    rw [List.foldl_cons]
    exact ih (streamStep p tail (count, buf) ch).1
      (streamStep p tail (count, buf) ch).2
      ((streamStep_spec p hp tail htail count buf ch).2)

/-- Claim C1: for any nonempty category pattern and any retained tail of at
least the pattern length minus one (the spec's "enough to catch a match
straddling the next chunk boundary"), the streaming scanner invoked by
`count_elements` returns exactly the number of non-overlapping pattern
occurrences of the whole document, no matter how the document is split
into chunks — in particular a match split across a chunk boundary is
counted exactly once and never twice. -/
theorem C1_stream_count (p : List Char) (tail : Nat)
    (chunks : List (List Char)) (hp : p ≠ [])
    (htail : p.length ≤ tail + 1) :
    stream_count_elements p tail chunks = countOccs p chunks.flatten := by
  have h1 := streamRun_invariant p hp tail htail chunks 0 []
  have h2 := streamRun_clean p hp tail htail chunks 0 [] (by rfl)
  unfold stream_count_elements
  rw [h2] at h1
  simpa using h1

/-- Claim C1 witness: a document holding one `"ab"` occurrence split
exactly across the two chunks `"xa"` and `"by"` is counted exactly once. -/
theorem C1_stream_count_witness :
    (['a', 'b'] : List Char) ≠ [] ∧
    stream_count_elements ['a', 'b'] 1 [['x', 'a'], ['b', 'y']] =
      countOccs ['a', 'b'] ([['x', 'a'], ['b', 'y']] : List (List Char)).flatten ∧
    countOccs ['a', 'b'] ([['x', 'a'], ['b', 'y']] : List (List Char)).flatten = 1 :=
  ⟨by decide,
   C1_stream_count ['a', 'b'] 1 [['x', 'a'], ['b', 'y']] (by decide) (by decide),
   by decide⟩
